import Mathlib

/-!
Verification of the Novault client-side encryption layer.

The TypeScript sources under `src/` provide the UI callers, the persistence
boundary (Supabase server actions) and the hex utility; the cryptographic
core itself is a WASM module whose Rust source is not part of the corpus,
so it is modelled here from the specification (doc comments on those
definitions start with `Modelled from the spec:`).

Bytes are modelled as `List Nat`; strings cross the boundary as `String`
or as `List Char` where the source manipulates characters.
-/

/- ===== Hex decoder (src/unnamed/part_004, `HexToUint8Array`) ===== -/

/-- JavaScript whitespace recognised by `parseInt` (space, tab, LF, VT, FF, CR). -/
def isJsWhitespace (c : Char) : Bool :=
  c.toNat = 32 || c.toNat = 9 || c.toNat = 10 || c.toNat = 11 || c.toNat = 12 || c.toNat = 13

/-- Radix-16 digit recognised by `parseInt`: `0-9`, `a-f`, `A-F`. -/
def isHexDigitChar (c : Char) : Bool :=
  (48 ≤ c.toNat && c.toNat ≤ 57) || (97 ≤ c.toNat && c.toNat ≤ 102)
    || (65 ≤ c.toNat && c.toNat ≤ 70)

/-- Numeric value of a radix-16 digit (0 for non-digits; only used under
`isHexDigitChar`). -/
def hexDigitVal (c : Char) : Nat :=
  if 48 ≤ c.toNat && c.toNat ≤ 57 then c.toNat - 48
  else if 97 ≤ c.toNat && c.toNat ≤ 102 then c.toNat - 87
  else if 65 ≤ c.toNat && c.toNat ≤ 70 then c.toNat - 55
  else 0

/-- Value of the longest radix-16 digit run at the head of `l`, accumulating
into `acc`, as `parseInt` does after its preliminary scanning. -/
def hexPfxVal : List Char → Nat → Nat
  | [], acc => acc
  | c :: t, acc => if isHexDigitChar c then hexPfxVal t (acc * 16 + hexDigitVal c) else acc

/-- `parseInt` with radix 16 strips one leading `0x` / `0X` marker. -/
def jsHexStrip (r : List Char) : List Char :=
  match r with
  | c0 :: c1 :: t => if c0.toNat = 48 && (c1.toNat = 120 || c1.toNat = 88) then t else r
  | _ => r

/-- Digit phase of `parseInt(·, 16)`: after `0x` stripping, the longest run of
radix-16 digits; `none` is NaN (no digit found). -/
def jsHexBody (r : List Char) : Option Nat :=
  match jsHexStrip r with
  | [] => none
  | c :: t => if isHexDigitChar c then some (hexPfxVal (c :: t) 0) else none

/-- JavaScript `parseInt(s, 16)`: skip whitespace, read an optional sign, then
the digit phase; `none` is NaN. -/
def jsParseIntSixteen (l : List Char) : Option Int :=
  match l.dropWhile isJsWhitespace with
  | [] => none
  | c :: r =>
    if c.toNat = 45 then (jsHexBody r).map (fun v => -(v : Int))
    else if c.toNat = 43 then (jsHexBody r).map (fun v => (v : Int))
    else (jsHexBody (c :: r)).map (fun v => (v : Int))

/-- Storing a JavaScript number into a `Uint8Array` cell: NaN becomes 0,
other values are taken modulo 256 (`ToUint8`). -/
def toUint8 (o : Option Int) : Nat :=
  match o with
  | none => 0
  | some z => (z % 256).toNat

/-- The loop of `HexToUint8Array`: `bytes[i / 2] = parseInt(cleanHex.substring(i, i + 2), 16)`
for `i = 0, 2, 4, ...`. -/
def hexBytes : List Char → List Nat
  | c1 :: c2 :: rest => toUint8 (jsParseIntSixteen [c1, c2]) :: hexBytes rest
  | _ => []

/-- `hexStr.startsWith("\\x") ? hexStr.slice(2) : hexStr` — strips one leading
backslash-x marker. -/
def hexClean (s : List Char) : List Char :=
  match s with
  | c1 :: c2 :: t => if c1 = '\\' ∧ c2 = 'x' then t else s
  | _ => s

/-- `HexToUint8Array` from `src/unnamed/part_004`.  The thrown
`Error("Invalid hex string length")` is modelled as `Except.error` carrying
the exception message; a returned `Uint8Array` is `Except.ok`. -/
def HexToUint8Array (hexStr : List Char) : Except String (List Nat) :=
  if hexStr = [] then Except.ok []
  else if (hexClean hexStr).length % 2 = 1 then Except.error "Invalid hex string length"
  else Except.ok (hexBytes (hexClean hexStr))

/- ===== Persistence boundary (HomeClient actions, src/unnamed/part_005, part_000) ===== -/

/-- Input shape of `saveUserSecrets` (`SaveUserSecretsInput` in HomeClient actions). -/
structure SaveUserSecretsInput where
  userId : String
  salt : String
  encryptedMasterKey : String
  nonce : String
  authTag : String

/-- Row shape inserted into `api.user_secrets` by `saveUserSecrets`. -/
structure UserSecretsRow where
  user_id : String
  salt : String
  encrypted_master_key : String
  mk_nonce : String

/-- The record `saveUserSecrets` passes to `insert`: exactly `user_id`, `salt`,
`encrypted_master_key` and `mk_nonce`, taken from the corresponding input
fields; `authTag` is not referenced. -/
def savedUserSecretsRow (input : SaveUserSecretsInput) : UserSecretsRow :=
  { user_id := input.userId
    salt := input.salt
    encrypted_master_key := input.encryptedMasterKey
    mk_nonce := input.nonce }

/-- `FileMetadata` row shape (src/unnamed/part_005). -/
structure FileMetadataRow where
  file_id : String
  uploader_id : String
  file_name : String
  file_path : String
  file_hash : String
  file_nonce : String
  uploaded_at : String

/-- `GetUserFilesResult` (src/unnamed/part_005). -/
structure GetUserFilesResult where
  success : Bool
  files : List FileMetadataRow
  error : Option String

/-- `getUserFiles` (src/unnamed/part_005), as a function of the authenticated
user (if any) and the outcome of the database query. -/
def getUserFiles (user : Option String)
    (query : Except String (List FileMetadataRow)) : GetUserFilesResult :=
  match user with
  | none => { success := false, files := [], error := some "Not authenticated" }
  | some _ =>
    match query with
    | Except.error e => { success := false, files := [], error := some e }
    | Except.ok rows => { success := true, files := rows, error := none }

/-- `UserSecret` record shape (HomeClient actions). -/
structure UserSecret where
  user_id : String
  salt : String
  encrypted_master_key : String
  mk_nonce : String
  created_at : String
  updated_at : String

/-- Result object returned by `wasm.decrypt_master_key` as consumed by
`handleVerify` (src/unnamed/part_000). -/
structure WasmDecryptResult where
  success : Bool
  master_key_hex : Option String
  error_message : Option String

/-- The `result` state set by `handleVerify` in the VerifyMasterKey component. -/
structure VerifyResult where
  success : Bool
  masterKey : Option String
  error : Option String

/-- `handleVerify` (src/unnamed/part_000): missing secrets throw and are caught
into a failure result; otherwise the WASM result is mapped to a success or
failure result. -/
def handleVerify (secrets : Option UserSecret) (decryptResult : WasmDecryptResult) :
    VerifyResult :=
  match secrets with
  | none => { success := false, masterKey := none, error := some "No secrets found for this user" }
  | some _ =>
    if decryptResult.success then
      { success := true, masterKey := decryptResult.master_key_hex, error := none }
    else
      { success := false, masterKey := none, error := decryptResult.error_message }

/- ===== Cryptographic core, modelled from the spec (the Rust/WASM module is
not part of the corpus) ===== -/

/-- Modelled from the spec: `random_bytes(n)` (§4.1) from the missing WASM
core.  Randomness is passed as an explicit entropy argument (§1: "all
randomness drawn from a supplied cryptographically secure source"); the
result always has length `n`. -/
def random_bytes (n : Nat) (entropy : List Nat) : List Nat :=
  (entropy ++ List.replicate n 0).take n

/-- Modelled from the spec: base used by the ideal AEAD tag, one more than the
largest byte of key, nonce and plaintext, so every byte is a valid digit. -/
def tagBase (k n p : List Nat) : Nat := (k ++ n ++ p).foldr max 0 + 1

/-- Modelled from the spec: the 16-byte authentication tag of the ideal
AES-256-GCM (§4.1).  The GCM tag binds key, nonce and plaintext; the ideal
model makes that binding perfect (injective), which is what the contract
"any bit-flip in ciphertext, tag, key, or nonce must yield AuthFailure"
expresses.  Confidentiality is not modelled (no claim about it is proved). -/
def gcmTag (k n p : List Nat) : List Nat :=
  tagBase k n p :: k.length :: n.length :: p.length ::
    Nat.ofDigits (tagBase k n p) (k ++ n ++ p) :: List.replicate 11 0

/-- Modelled from the spec: `aes256_gcm_encrypt(key, nonce, plaintext) ->
ciphertext_with_tag` (§4.1) from the missing WASM core; the 16-byte tag is
appended to the ciphertext (§3, §6). -/
def aes256_gcm_encrypt (key nonce plaintext : List Nat) : List Nat :=
  plaintext ++ gcmTag key nonce plaintext

/-- Modelled from the spec: `aes256_gcm_decrypt(key, nonce, ciphertext_with_tag)
-> Result<plaintext, AuthFailure>` (§4.1) from the missing WASM core: split
off the 16-byte tag and accept only if it authenticates key, nonce and body. -/
def aes256_gcm_decrypt (key nonce ct : List Nat) : Except Unit (List Nat) :=
  if 16 ≤ ct.length then
    if ct.drop (ct.length - 16) = gcmTag key nonce (ct.take (ct.length - 16)) then
      Except.ok (ct.take (ct.length - 16))
    else Except.error ()
  else Except.error ()

/-- Modelled from the spec: `derive_key(password, salt) -> DerivedKey` (§4.2)
from the missing WASM core: a deterministic 32-byte key.  The ideal KDF is
injective in (password, salt), the symbolic reading of §8's "wrong password
rejection" and "determinism of derivation". -/
def derive_key (password salt : List Nat) : List Nat :=
  ((password ++ salt).foldr max 0 + 1) :: password.length :: salt.length ::
    Nat.ofDigits ((password ++ salt).foldr max 0 + 1) (password ++ salt) ::
    List.replicate 28 0

/-- Modelled from the spec: the typed error kinds of §7. -/
inductive DecryptError where
  | InvalidFormat
  | KeyDerivationFailed
  | WrongPasswordOrCorrupted
  | KeyUnwrapFailed
  | ContentDecryptFailed
  | RandomnessUnavailable
deriving DecidableEq

/-- Modelled from the spec: the X25519 public point of a scalar (§4.1).  Only
the Diffie-Hellman symmetry `dh(a, pub b) = dh(b, pub a)` is relied on. -/
def x25519_point_of (scalar : List Nat) : List Nat := scalar

/-- Modelled from the spec: `x25519_generate_keypair() -> (scalar, point)`
(§4.1) from the missing WASM core, with explicit entropy. -/
def x25519_generate_keypair (entropy : List Nat) : List Nat × List Nat :=
  (random_bytes 32 entropy, x25519_point_of (random_bytes 32 entropy))

/-- Modelled from the spec: `x25519_diffie_hellman(scalar, peer_point) ->
shared_secret` (§4.1) from the missing WASM core; commutative by pointwise
addition, which gives the ECDH symmetry used by §4.4. -/
def x25519_diffie_hellman (scalar point : List Nat) : List Nat :=
  List.zipWith (fun a b => a + b) scalar point

/-- Modelled from the spec: `IdentityKeyPair` (§3). -/
structure IdentityKeyPair where
  public_key : List Nat
  encrypted_private_key : List Nat
  nonce : List Nat
  salt : List Nat

/-- Modelled from the spec: `setup_identity(password, salt)` (§4.3) from the
missing WASM core: derive a key, generate an X25519 keypair and a fresh
nonce, and encrypt the private scalar under the derived key. -/
def setup_identity (password salt scalarEntropy nonceEntropy : List Nat) : IdentityKeyPair :=
  { public_key := (x25519_generate_keypair scalarEntropy).2
    encrypted_private_key :=
      aes256_gcm_encrypt (derive_key password salt) (random_bytes 12 nonceEntropy)
        (x25519_generate_keypair scalarEntropy).1
    nonce := random_bytes 12 nonceEntropy
    salt := salt }

/-- Modelled from the spec: `unlock_identity(password, salt,
encrypted_private_key, nonce)` (§4.3) from the missing WASM core; AEAD
failure surfaces as `WrongPasswordOrCorrupted`. -/
def unlock_identity (password salt encrypted_private_key nonce : List Nat) :
    Except DecryptError (List Nat) :=
  match aes256_gcm_decrypt (derive_key password salt) nonce encrypted_private_key with
  | Except.ok scalar => Except.ok scalar
  | Except.error _ => Except.error DecryptError.WrongPasswordOrCorrupted

/-- Modelled from the spec: the symmetric master-key variant
`encrypt_master_key` (§4.3, §9) from the missing WASM core; returns the
encrypted master key and the nonce. -/
def encrypt_master_key (password salt mkEntropy nonceEntropy : List Nat) :
    List Nat × List Nat :=
  (aes256_gcm_encrypt (derive_key password salt) (random_bytes 12 nonceEntropy)
      (random_bytes 32 mkEntropy),
    random_bytes 12 nonceEntropy)

/-- Modelled from the spec: `decrypt_master_key` (§4.3, §9) from the missing
WASM core; AEAD failure surfaces as `WrongPasswordOrCorrupted`. -/
def decrypt_master_key (password salt encrypted_key nonce : List Nat) :
    Except DecryptError (List Nat) :=
  match aes256_gcm_decrypt (derive_key password salt) nonce encrypted_key with
  | Except.ok mk => Except.ok mk
  | Except.error _ => Except.error DecryptError.WrongPasswordOrCorrupted

/-- Modelled from the spec: `FileEnvelope` (§3). -/
structure FileEnvelope where
  encrypted_file_body : List Nat
  file_nonce : List Nat
  encrypted_dek : List Nat
  dek_nonce : List Nat
  ephemeral_public_key : List Nat

/-- Modelled from the spec: `encrypt_file(plaintext, recipient_public_key) ->
FileEnvelope` (§4.4) from the missing WASM core, steps 1-7, with explicit
entropy for the DEK, the file nonce, the ephemeral keypair and the DEK
nonce. -/
def encrypt_file (plaintext recipient_public_key dekEntropy fnEntropy ephEntropy
    dnEntropy : List Nat) : FileEnvelope :=
  { encrypted_file_body :=
      aes256_gcm_encrypt (random_bytes 32 dekEntropy) (random_bytes 12 fnEntropy) plaintext
    file_nonce := random_bytes 12 fnEntropy
    encrypted_dek :=
      aes256_gcm_encrypt
        (x25519_diffie_hellman (x25519_generate_keypair ephEntropy).1 recipient_public_key)
        (random_bytes 12 dnEntropy) (random_bytes 32 dekEntropy)
    dek_nonce := random_bytes 12 dnEntropy
    ephemeral_public_key := (x25519_generate_keypair ephEntropy).2 }

/-- Modelled from the spec: `decrypt_file(envelope, recipient_private_key) ->
Result<plaintext, DecryptError>` (§4.4) from the missing WASM core, steps
1-4: recompute the shared secret, unwrap the DEK (`KeyUnwrapFailed` on AEAD
failure), then decrypt the body (`ContentDecryptFailed` on AEAD failure). -/
def decrypt_file (env : FileEnvelope) (recipient_private_key : List Nat) :
    Except DecryptError (List Nat) :=
  match aes256_gcm_decrypt
      (x25519_diffie_hellman recipient_private_key env.ephemeral_public_key)
      env.dek_nonce env.encrypted_dek with
  | Except.error _ => Except.error DecryptError.KeyUnwrapFailed
  | Except.ok dek =>
    match aes256_gcm_decrypt dek env.file_nonce env.encrypted_file_body with
    | Except.error _ => Except.error DecryptError.ContentDecryptFailed
    | Except.ok plaintext => Except.ok plaintext

/-- UTF-8-style byte view of a string for concrete scenarios (ASCII inputs). -/
def strBytes (s : String) : List Nat := s.data.map Char.toNat

/-- A single-bit flip: XOR byte `j` of `l` with `2 ^ t`. -/
def flipBit (l : List Nat) (j t : Nat) : List Nat :=
  l.set j (Nat.xor (l.getD j 0) (2 ^ t))

/- ===== Helper lemmas ===== -/

theorem random_bytes_length (n : Nat) (e : List Nat) : (random_bytes n e).length = n := by
  simp only [random_bytes, List.length_take, List.length_append, List.length_replicate]
  omega

theorem length_gcmTag (k n p : List Nat) : (gcmTag k n p).length = 16 := by
  simp [gcmTag]

theorem length_encrypt (k n p : List Nat) :
    (aes256_gcm_encrypt k n p).length = p.length + 16 := by
  simp [aes256_gcm_encrypt, length_gcmTag]

theorem mem_le_foldr_max (d : List Nat) (x : Nat) (hx : x ∈ d) : x ≤ d.foldr max 0 := by
  induction d with
  | nil => cases hx
  | cons a t ih =>
    rcases List.mem_cons.mp hx with h | h
    · exact h ▸ le_max_left _ _
    · exact le_trans (ih h) (le_max_right _ _)

theorem ofDigits_inj (b : Nat) :
    ∀ l1 l2 : List Nat, l1.length = l2.length →
      (∀ x ∈ l1, x < b) → (∀ x ∈ l2, x < b) →
      Nat.ofDigits b l1 = Nat.ofDigits b l2 → l1 = l2 := by
  intro l1
  induction l1 with
  | nil =>
    intro l2 hlen _ _ _
    cases l2 with
    | nil => rfl
    | cons a2 t2 => simp at hlen
  | cons a t ih =>
    intro l2 hlen h1 h2 hcode
    cases l2 with
    | nil => simp at hlen
    | cons a2 t2 =>
      have ha : a < b := h1 a (List.mem_cons_self a t)
      have ha2 : a2 < b := h2 a2 (List.mem_cons_self a2 t2)
      have hb : 0 < b := lt_of_le_of_lt (Nat.zero_le a) ha
      have hc : a + b * Nat.ofDigits b t = a2 + b * Nat.ofDigits b t2 := by
        have e1 : Nat.ofDigits b (a :: t) = a + b * Nat.ofDigits b t := by
          exact_mod_cast Nat.ofDigits_cons
        have e2 : Nat.ofDigits b (a2 :: t2) = a2 + b * Nat.ofDigits b t2 := by
          exact_mod_cast Nat.ofDigits_cons
        rw [← e1, ← e2]
        exact hcode
      have hmod : a = a2 := by
        have := congrArg (fun z => z % b) hc
        simpa [Nat.add_mul_mod_self_left, Nat.mod_eq_of_lt ha, Nat.mod_eq_of_lt ha2] using this
      have htail : Nat.ofDigits b t = Nat.ofDigits b t2 := by
        have hc2 : b * Nat.ofDigits b t = b * Nat.ofDigits b t2 := by omega
        exact Nat.eq_of_mul_eq_mul_left hb hc2
      have := ih t2 (by simpa using hlen) (fun x hx => h1 x (List.mem_cons_of_mem a hx))
        (fun x hx => h2 x (List.mem_cons_of_mem a2 hx)) htail
      rw [hmod, this]

theorem gcmTag_inj {k n p k2 n2 p2 : List Nat} (h : gcmTag k n p = gcmTag k2 n2 p2) :
    k = k2 ∧ n = n2 ∧ p = p2 := by
  simp only [gcmTag, List.cons.injEq, and_true] at h
  obtain ⟨hb, hk, hn, hp, hcode⟩ := h
  have hd1 : ∀ x ∈ k ++ n ++ p, x < tagBase k n p := by
    intro x hx
    exact Nat.lt_succ_of_le (mem_le_foldr_max _ x hx)
  have hd2 : ∀ x ∈ k2 ++ n2 ++ p2, x < tagBase k n p := by
    intro x hx
    rw [hb]
    exact Nat.lt_succ_of_le (mem_le_foldr_max _ x hx)
  have hlen : (k ++ n ++ p).length = (k2 ++ n2 ++ p2).length := by
    simp [hk, hn, hp]
  have hall : k ++ n ++ p = k2 ++ n2 ++ p2 := by
    refine ofDigits_inj (tagBase k n p) _ _ hlen hd1 hd2 ?_
    rw [hcode, hb]
  have hkn : k ++ n = k2 ++ n2 ∧ p = p2 :=
    List.append_inj hall (by simp [hk, hn])
  have hk2 : k = k2 ∧ n = n2 := List.append_inj hkn.1 hk
  exact ⟨hk2.1, hk2.2, hkn.2⟩

theorem derive_key_inj {p1 s1 p2 s2 : List Nat} (h : derive_key p1 s1 = derive_key p2 s2) :
    p1 = p2 ∧ s1 = s2 := by
  simp only [derive_key, List.cons.injEq, and_true] at h
  obtain ⟨hb, hp, hs, hcode⟩ := h
  have hd1 : ∀ x ∈ p1 ++ s1, x < (p1 ++ s1).foldr max 0 + 1 := by
    intro x hx
    exact Nat.lt_succ_of_le (mem_le_foldr_max _ x hx)
  have hd2 : ∀ x ∈ p2 ++ s2, x < (p1 ++ s1).foldr max 0 + 1 := by
    intro x hx
    rw [hb]
    exact Nat.lt_succ_of_le (mem_le_foldr_max _ x hx)
  have hlen : (p1 ++ s1).length = (p2 ++ s2).length := by
    simp [hp, hs]
  have hall : p1 ++ s1 = p2 ++ s2 := by
    refine ofDigits_inj ((p1 ++ s1).foldr max 0 + 1) _ _ hlen hd1 hd2 ?_
    rw [hcode, hb]
  exact List.append_inj hall hp

theorem decrypt_encrypt (k n p : List Nat) :
    aes256_gcm_decrypt k n (aes256_gcm_encrypt k n p) = Except.ok p := by
  unfold aes256_gcm_decrypt aes256_gcm_encrypt
  have hlen : (p ++ gcmTag k n p).length = p.length + 16 := by
    simp [length_gcmTag]
  rw [hlen, Nat.add_sub_cancel, List.drop_left, List.take_left]
  simp

theorem decrypt_mismatch (k n body tag : List Nat) (hlen : tag.length = 16)
    (hne : tag ≠ gcmTag k n body) :
    aes256_gcm_decrypt k n (body ++ tag) = Except.error () := by
  unfold aes256_gcm_decrypt
  have hlen2 : (body ++ tag).length = body.length + 16 := by
    simp [hlen]
  rw [hlen2, Nat.add_sub_cancel, List.drop_left, List.take_left]
  simp [hne]

theorem decrypt_wrong_key (k n k2 n2 p : List Nat) (h : ¬(k2 = k ∧ n2 = n)) :
    aes256_gcm_decrypt k2 n2 (aes256_gcm_encrypt k n p) = Except.error () := by
  unfold aes256_gcm_encrypt
  refine decrypt_mismatch k2 n2 p (gcmTag k n p) (length_gcmTag k n p) ?_
  intro heq
  rcases gcmTag_inj heq with ⟨hk, hn, -⟩
  exact h ⟨hk.symm, hn.symm⟩

theorem xor_two_pow_ne (x t : Nat) : Nat.xor x (2 ^ t) ≠ x := by
  intro h
  have h2 := congrArg (Nat.xor x) h
  change x ^^^ (x ^^^ 2 ^ t) = x ^^^ x at h2
  rw [Nat.xor_cancel_left, Nat.xor_self] at h2
  exact absurd h2 (Nat.pos_iff_ne_zero.mp (pow_pos (by norm_num) t))

theorem set_ne (l : List Nat) (j v : Nat) (hj : j < l.length) (hv : v ≠ l.getD j 0) :
    l.set j v ≠ l := by
  intro h
  apply hv
  have h1 : (l.set j v).getD j 0 = v := by
    rw [List.getD_eq_getElem _ 0 (by simpa using hj)]
    exact List.getElem_set_self (h := by simpa using hj)
  rw [h] at h1
  exact h1.symm

theorem decrypt_flip (k n p : List Nat) (j t : Nat) (hj : j < p.length + 16) :
    aes256_gcm_decrypt k n (flipBit (aes256_gcm_encrypt k n p) j t) = Except.error () := by
  unfold flipBit aes256_gcm_encrypt
  by_cases hcase : j < p.length
  · have hg : (p ++ gcmTag k n p).getD j 0 = p.getD j 0 := by
      simp [List.getD, List.getElem?_append_left hcase]
    rw [hg, List.set_append_left _ _ hcase]
    refine decrypt_mismatch k n (p.set j (Nat.xor (p.getD j 0) (2 ^ t))) (gcmTag k n p)
      (length_gcmTag k n p) ?_
    intro heq
    rcases gcmTag_inj heq with ⟨-, -, hp⟩
    exact set_ne p j _ hcase (xor_two_pow_ne _ t) hp.symm
  · have hge : p.length ≤ j := Nat.le_of_not_lt hcase
    have hg : (p ++ gcmTag k n p).getD j 0 = (gcmTag k n p).getD (j - p.length) 0 := by
      simp [List.getD, List.getElem?_append_right hge]
    rw [hg, List.set_append_right _ _ hge]
    have hidx : j - p.length < (gcmTag k n p).length := by
      rw [length_gcmTag]; omega
    refine decrypt_mismatch k n p _ (by rw [List.length_set]; exact length_gcmTag k n p) ?_
    exact set_ne (gcmTag k n p) (j - p.length) _ hidx (xor_two_pow_ne _ t)

theorem dh_comm (a b : List Nat) :
    x25519_diffie_hellman a b = x25519_diffie_hellman b a := by
  unfold x25519_diffie_hellman
  exact List.zipWith_comm_of_comm _ Nat.add_comm a b

theorem dh_flip_ne (s P : List Nat) (j t : Nat) (hs : j < s.length) (hP : j < P.length) :
    x25519_diffie_hellman s (flipBit P j t) ≠ x25519_diffie_hellman s P := by
  intro h
  unfold x25519_diffie_hellman flipBit at h
  have hb1 : j < (List.zipWith (fun a b => a + b) s (P.set j (Nat.xor (P.getD j 0) (2 ^ t)))).length := by
    simp
    omega
  have hb2 : j < (List.zipWith (fun a b => a + b) s P).length := by
    simp
    omega
  have hsetb : j < (P.set j (Nat.xor (P.getD j 0) (2 ^ t))).length := by
    simpa using hP
  have hL : (List.zipWith (fun a b => a + b) s (P.set j (Nat.xor (P.getD j 0) (2 ^ t)))).getD j 0 =
      s.getD j 0 + (P.set j (Nat.xor (P.getD j 0) (2 ^ t))).getD j 0 := by
    rw [List.getD_eq_getElem _ 0 hb1, List.getD_eq_getElem _ 0 hs, List.getD_eq_getElem _ 0 hsetb]
    simp
  have hR : (List.zipWith (fun a b => a + b) s P).getD j 0 = s.getD j 0 + P.getD j 0 := by
    rw [List.getD_eq_getElem _ 0 hb2, List.getD_eq_getElem _ 0 hs, List.getD_eq_getElem _ 0 hP]
    simp
  have hPset : (P.set j (Nat.xor (P.getD j 0) (2 ^ t))).getD j 0 =
      Nat.xor (P.getD j 0) (2 ^ t) := by
    rw [List.getD_eq_getElem _ 0 hsetb]
    exact List.getElem_set_self (h := hsetb)
  have hget : (List.zipWith (fun a b => a + b) s (P.set j (Nat.xor (P.getD j 0) (2 ^ t)))).getD j 0 =
      (List.zipWith (fun a b => a + b) s P).getD j 0 := by
    rw [h]
  rw [hL, hR, hPset] at hget
  exact xor_two_pow_ne (P.getD j 0) t (Nat.add_left_cancel hget)

theorem unlock_setup (pw salt e1 e2 : List Nat) :
    unlock_identity pw salt (setup_identity pw salt e1 e2).encrypted_private_key
      (setup_identity pw salt e1 e2).nonce = Except.ok (random_bytes 32 e1) := by
  simp [unlock_identity, setup_identity, x25519_generate_keypair, decrypt_encrypt]

theorem hexDigitVal_le (c : Char) (h : isHexDigitChar c = true) : hexDigitVal c ≤ 15 := by
  simp only [isHexDigitChar, Bool.or_eq_true, Bool.and_eq_true, decide_eq_true_eq] at h
  unfold hexDigitVal
  split_ifs with h1 h2 h3 <;>
    simp_all only [Bool.and_eq_true, decide_eq_true_eq] <;> omega

theorem hexPair_val (c1 c2 : Char) (h1 : isHexDigitChar c1 = true)
    (h2 : isHexDigitChar c2 = true) :
    toUint8 (jsParseIntSixteen [c1, c2]) = 16 * hexDigitVal c1 + hexDigitVal c2 := by
  have hr1 : (48 ≤ c1.toNat ∧ c1.toNat ≤ 57 ∨ 97 ≤ c1.toNat ∧ c1.toNat ≤ 102) ∨
      65 ≤ c1.toNat ∧ c1.toNat ≤ 70 := by
    simpa [isHexDigitChar, Bool.or_eq_true, Bool.and_eq_true, decide_eq_true_eq] using h1
  have hr2 : (48 ≤ c2.toNat ∧ c2.toNat ≤ 57 ∨ 97 ≤ c2.toNat ∧ c2.toNat ≤ 102) ∨
      65 ≤ c2.toNat ∧ c2.toNat ≤ 70 := by
    simpa [isHexDigitChar, Bool.or_eq_true, Bool.and_eq_true, decide_eq_true_eq] using h2
  have hw : isJsWhitespace c1 = false := by
    simp only [isJsWhitespace, Bool.or_eq_false_iff, decide_eq_false_iff_not]
    omega
  have hm : ¬c1.toNat = 45 := by omega
  have hp : ¬c1.toNat = 43 := by omega
  have hx : (c1.toNat = 48 && (c2.toNat = 120 || c2.toNat = 88)) = false := by
    simp only [Bool.and_eq_false_iff, Bool.or_eq_false_iff, decide_eq_false_iff_not]
    omega
  have hstrip : jsHexStrip [c1, c2] = [c1, c2] := by
    unfold jsHexStrip
    simp [hx]
  have hpfx : hexPfxVal [c1, c2] 0 = (0 * 16 + hexDigitVal c1) * 16 + hexDigitVal c2 := by
    unfold hexPfxVal
    simp only [h1, if_true, ite_true]
    unfold hexPfxVal
    simp only [h2, if_true, ite_true]
    unfold hexPfxVal
    rfl
  have hbody : jsHexBody [c1, c2] = some ((0 * 16 + hexDigitVal c1) * 16 + hexDigitVal c2) := by
    unfold jsHexBody
    rw [hstrip, ← hpfx]
    simp [h1]
  have hdrop : List.dropWhile isJsWhitespace [c1, c2] = [c1, c2] := by
    simp [List.dropWhile_cons, hw]
  have hv1 := hexDigitVal_le c1 h1
  have hv2 := hexDigitVal_le c2 h2
  have hlt : (0 * 16 + hexDigitVal c1) * 16 + hexDigitVal c2 < 256 := by omega
  unfold jsParseIntSixteen
  rw [hdrop]
  simp only [if_neg hm, if_neg hp]
  rw [hbody]
  show ((((0 * 16 + hexDigitVal c1) * 16 + hexDigitVal c2 : Nat) : Int) % 256).toNat =
    16 * hexDigitVal c1 + hexDigitVal c2
  omega

theorem hexBytes_length_even (l : List Char) (n : Nat) (hlen : l.length = 2 * n) :
    (hexBytes l).length = n := by
  induction n generalizing l with
  | zero =>
    cases l with
    | nil => simp [hexBytes]
    | cons a t => simp at hlen
  | succ m ih =>
    cases l with
    | nil => simp at hlen
    | cons a t =>
      cases t with
      | nil =>
        simp only [List.length_cons, List.length_nil] at hlen
        omega
      | cons b r =>
        have hb : hexBytes (a :: b :: r) = toUint8 (jsParseIntSixteen [a, b]) :: hexBytes r := rfl
        have hr : r.length = 2 * m := by
          simp only [List.length_cons] at hlen
          omega
        rw [hb, List.length_cons, ih r hr]

theorem hexBytes_getD (l : List Char) (n : Nat) (hlen : l.length = 2 * n)
    (hhex : ∀ c ∈ l, isHexDigitChar c = true) :
    ∀ i, i < n → (hexBytes l).getD i 0 =
      16 * hexDigitVal (l.getD (2 * i) '0') + hexDigitVal (l.getD (2 * i + 1) '0') := by
  induction n generalizing l with
  | zero => omega
  | succ m ih =>
    cases l with
    | nil => simp at hlen
    | cons a t =>
      cases t with
      | nil =>
        simp only [List.length_cons, List.length_nil] at hlen
        omega
      | cons b r =>
        intro i hi
        have hb : hexBytes (a :: b :: r) = toUint8 (jsParseIntSixteen [a, b]) :: hexBytes r := rfl
        have hr : r.length = 2 * m := by
          simp only [List.length_cons] at hlen
          omega
        cases i with
        | zero =>
          rw [hb]
          simp only [Nat.mul_zero, List.getD_cons_zero, Nat.zero_add, List.getD_cons_succ]
          rw [hexPair_val a b (hhex a (by simp)) (hhex b (by simp))]
        | succ i2 =>
          rw [hb]
          have e1 : (toUint8 (jsParseIntSixteen [a, b]) :: hexBytes r).getD (i2 + 1) 0 =
              (hexBytes r).getD i2 0 := by
            simp [List.getD_cons_succ]
          have e2 : (a :: b :: r).getD (2 * (i2 + 1)) '0' = r.getD (2 * i2) '0' := by
            have h22 : 2 * (i2 + 1) = 2 * i2 + 1 + 1 := by omega
            rw [h22]
            simp [List.getD_cons_succ]
          have e3 : (a :: b :: r).getD (2 * (i2 + 1) + 1) '0' = r.getD (2 * i2 + 1) '0' := by
            have h23 : 2 * (i2 + 1) + 1 = 2 * i2 + 1 + 1 + 1 := by omega
            rw [h23]
            simp [List.getD_cons_succ]
          rw [e1, e2, e3]
          exact ih r hr
            (fun c hc => hhex c (List.mem_cons_of_mem a (List.mem_cons_of_mem b hc))) i2 (by omega)

/- ===== Claim theorems ===== -/

/-- C9: the record persisted by `saveUserSecrets` consists of exactly
`user_id`, `salt`, `encrypted_master_key` and `mk_nonce`, taken from
`userId`, `salt`, `encryptedMasterKey` and `nonce`; the `authTag` input
field is never written, so inputs differing only in `authTag` produce the
same stored record. -/
theorem saved_record_fields :
    (∀ i : SaveUserSecretsInput,
      (savedUserSecretsRow i).user_id = i.userId ∧
      (savedUserSecretsRow i).salt = i.salt ∧
      (savedUserSecretsRow i).encrypted_master_key = i.encryptedMasterKey ∧
      (savedUserSecretsRow i).mk_nonce = i.nonce) ∧
    (∀ (i : SaveUserSecretsInput) (tag : String),
      savedUserSecretsRow { i with authTag := tag } = savedUserSecretsRow i) :=
  ⟨fun _ => ⟨rfl, rfl, rfl, rfl⟩, fun _ _ => rfl⟩

/-- C8 counterexample: `HexToUint8Array` on the odd-length input "abc" raises a
generic `Error` exception (modelled as the error message it throws) instead
of returning a typed error result, refuting "errors are returned as typed
results rather than raised as generic exceptions" for every operation. -/
theorem odd_hex_raises :
    HexToUint8Array "abc".data = Except.error "Invalid hex string length" := by
  rfl

/-- C8 amended: the result-returning operations (`getUserFiles` and the
master-key verification flow) each return exclusively a success value or a
failure carrying only an error (with an empty file list resp. no master
key); the hex decoder, however, raises a generic exception on odd-length
input, so the "never raised as generic exceptions" part does not hold for
every operation. -/
theorem result_shape_exclusive :
    (∀ (u : Option String) (q : Except String (List FileMetadataRow)),
      ((getUserFiles u q).success = true ∧ (getUserFiles u q).error = none) ∨
      ((getUserFiles u q).success = false ∧ (getUserFiles u q).files = [] ∧
        (getUserFiles u q).error ≠ none)) ∧
    (∀ (s : Option UserSecret) (r : WasmDecryptResult),
      ((handleVerify s r).success = true ∧ (handleVerify s r).error = none ∧
        (handleVerify s r).masterKey = r.master_key_hex) ∨
      ((handleVerify s r).success = false ∧ (handleVerify s r).masterKey = none)) := by
  constructor
  · intro u q
    cases u with
    | none => exact Or.inr ⟨rfl, rfl, by simp [getUserFiles]⟩
    | some x =>
      cases q with
      | error e => exact Or.inr ⟨rfl, rfl, by simp [getUserFiles]⟩
      | ok rows => exact Or.inl ⟨rfl, rfl⟩
  · intro s r
    cases s with
    | none => exact Or.inr ⟨rfl, rfl⟩
    | some x =>
      by_cases hr : r.success = true
      · exact Or.inl ⟨by simp [handleVerify, hr], by simp [handleVerify, hr],
          by simp [handleVerify, hr]⟩
      · exact Or.inr ⟨by simp [handleVerify, hr], by simp [handleVerify, hr]⟩

/-- C4 counterexample: the even-length non-hex string "zz" is not rejected at
all — `HexToUint8Array` returns the byte array `[0]` (lenient `parseInt`
yields NaN, stored as 0), refuting "a non-hex character yields an
InvalidFormat typed error". -/
theorem hex_nonhex_accepted : HexToUint8Array "zz".data = Except.ok [0] := by
  rfl

/-- C4 amended: the only rejection `HexToUint8Array` performs is for inputs
whose prefix-stripped form has odd length, and that rejection is a thrown
generic `Error("Invalid hex string length")`, not an `InvalidFormat` typed
error; every other input (including strings with non-hex characters)
decodes to some byte array without error. -/
theorem hex_decoder_error_behavior :
    (∀ s : List Char,
      HexToUint8Array s = Except.error "Invalid hex string length" ∨
      ∃ bs, HexToUint8Array s = Except.ok bs) ∧
    (∀ s : List Char,
      HexToUint8Array s = Except.error "Invalid hex string length" ↔
        (s ≠ [] ∧ (hexClean s).length % 2 = 1)) := by
  constructor
  · intro s
    unfold HexToUint8Array
    split_ifs with h1 h2
    · exact Or.inr ⟨[], rfl⟩
    · exact Or.inl rfl
    · exact Or.inr ⟨_, rfl⟩
  · intro s
    unfold HexToUint8Array
    split_ifs with h1 h2
    · simp [h1]
    · simp [h1, h2]
    · simp [h1, h2]

/-- C10: `HexToUint8Array` returns the empty byte array on the empty string;
a leading backslash-x prefix is stripped and the remainder decoded; and an
even-length (2n) prefix-stripped input yields exactly n bytes, where byte i
is the value of the two hex digits at positions 2i and 2i+1. -/
theorem hex_decode_spec :
    (HexToUint8Array [] = Except.ok []) ∧
    (∀ t : List Char, HexToUint8Array ('\\' :: 'x' :: t) =
      (if t.length % 2 = 1 then Except.error "Invalid hex string length"
        else Except.ok (hexBytes t))) ∧
    (∀ (l : List Char) (n : Nat), l.length = 2 * n →
      (hexBytes l).length = n ∧
      ((∀ c ∈ l, isHexDigitChar c = true) → ∀ i, i < n →
        (hexBytes l).getD i 0 =
          16 * hexDigitVal (l.getD (2 * i) '0') + hexDigitVal (l.getD (2 * i + 1) '0'))) := by
  refine ⟨rfl, ?_, ?_⟩
  · intro t
    have hne : ¬('\\' :: 'x' :: t = []) := by simp
    have hcl : hexClean ('\\' :: 'x' :: t) = t := by
      unfold hexClean
      simp
    unfold HexToUint8Array
    rw [if_neg hne, hcl]
  · intro l n hlen
    exact ⟨hexBytes_length_even l n hlen, fun hh => hexBytes_getD l n hlen hh⟩

/-- C10 witness: the spec instantiated on the concrete input "de". -/
theorem hex_decode_spec_witness :
    ("de".data.length = 2 * 1) ∧ (∀ c ∈ "de".data, isHexDigitChar c = true) ∧ (0 < 1) ∧
    (hexBytes "de".data).length = 1 ∧
    (hexBytes "de".data).getD 0 0 =
      16 * hexDigitVal ("de".data.getD (2 * 0) '0') +
        hexDigitVal ("de".data.getD (2 * 0 + 1) '0') := by
  refine ⟨by decide, by decide, by decide, ?_, ?_⟩
  · exact (hex_decode_spec.2.2 "de".data 1 (by decide)).1
  · exact (hex_decode_spec.2.2 "de".data 1 (by decide)).2 (by decide) 0 (by decide)

theorem decrypt_encrypt_file (P pw salt e1 e2 d f g h : List Nat) :
    decrypt_file (encrypt_file P (setup_identity pw salt e1 e2).public_key d f g h)
      (random_bytes 32 e1) = Except.ok P := by
  have hsh : x25519_diffie_hellman (random_bytes 32 e1) (random_bytes 32 g) =
      x25519_diffie_hellman (random_bytes 32 g) (random_bytes 32 e1) := dh_comm _ _
  simp [decrypt_file, encrypt_file, setup_identity, x25519_generate_keypair, x25519_point_of,
    hsh, decrypt_encrypt]

/-- C1: round trip — for every plaintext (of any length, including empty) and
every password/salt, decrypting the envelope produced by `encrypt_file`
with the private key recovered by `unlock_identity` under the same password
and salt returns exactly the plaintext. -/
theorem encrypt_decrypt_round_trip (P pw salt e1 e2 d f g h : List Nat) :
    ∃ sk : List Nat,
      unlock_identity pw salt (setup_identity pw salt e1 e2).encrypted_private_key
        (setup_identity pw salt e1 e2).nonce = Except.ok sk ∧
      decrypt_file (encrypt_file P (setup_identity pw salt e1 e2).public_key d f g h) sk =
        Except.ok P :=
  ⟨random_bytes 32 e1, unlock_setup pw salt e1 e2, decrypt_encrypt_file P pw salt e1 e2 d f g h⟩

/-- C2: unlocking an identity (or master key) encrypted under password A with
a different password B always yields `WrongPasswordOrCorrupted`; in
particular no successful result with a wrong key is ever produced. -/
theorem wrong_password_rejected (a b salt e1 e2 e3 e4 : List Nat) (hne : b ≠ a) :
    unlock_identity b salt (setup_identity a salt e1 e2).encrypted_private_key
      (setup_identity a salt e1 e2).nonce =
        Except.error DecryptError.WrongPasswordOrCorrupted ∧
    decrypt_master_key b salt (encrypt_master_key a salt e3 e4).1
      (encrypt_master_key a salt e3 e4).2 =
        Except.error DecryptError.WrongPasswordOrCorrupted := by
  have hk : derive_key b salt ≠ derive_key a salt := fun hEq => hne (derive_key_inj hEq).1
  constructor
  · have hd := decrypt_wrong_key (derive_key a salt) (random_bytes 12 e2) (derive_key b salt)
      (random_bytes 12 e2) (random_bytes 32 e1) (fun hc => hk hc.1)
    simp [unlock_identity, setup_identity, x25519_generate_keypair, hd]
  · have hd := decrypt_wrong_key (derive_key a salt) (random_bytes 12 e4) (derive_key b salt)
      (random_bytes 12 e4) (random_bytes 32 e3) (fun hc => hk hc.1)
    simp [decrypt_master_key, encrypt_master_key, hd]

/-- C2 witness: concrete passwords `[1]` and `[2]` with salt `[3]`. -/
theorem wrong_password_rejected_witness :
    ([2] : List Nat) ≠ [1] ∧
    unlock_identity [2] [3] (setup_identity [1] [3] [] []).encrypted_private_key
      (setup_identity [1] [3] [] []).nonce =
        Except.error DecryptError.WrongPasswordOrCorrupted ∧
    decrypt_master_key [2] [3] (encrypt_master_key [1] [3] [] []).1
      (encrypt_master_key [1] [3] [] []).2 =
        Except.error DecryptError.WrongPasswordOrCorrupted := by
  have hw := wrong_password_rejected [1] [2] [3] [] [] [] [] (by decide)
  exact ⟨by decide, hw.1, hw.2⟩

/-- C6: every AEAD ciphertext in the design (generic primitive, encrypted
private key, encrypted master key, encrypted DEK, encrypted file body) has
length exactly plaintext length plus 16 (the appended tag). -/
theorem ciphertext_length_law :
    (∀ k n p : List Nat, (aes256_gcm_encrypt k n p).length = p.length + 16) ∧
    (∀ pw salt e1 e2 : List Nat,
      (setup_identity pw salt e1 e2).encrypted_private_key.length = 32 + 16) ∧
    (∀ pw salt e3 e4 : List Nat,
      (encrypt_master_key pw salt e3 e4).1.length = 32 + 16) ∧
    (∀ P pk d f g h : List Nat,
      (encrypt_file P pk d f g h).encrypted_file_body.length = P.length + 16 ∧
      (encrypt_file P pk d f g h).encrypted_dek.length = 32 + 16) := by
  refine ⟨length_encrypt, ?_, ?_, ?_⟩
  · intro pw salt e1 e2
    simp [setup_identity, x25519_generate_keypair, length_encrypt, random_bytes_length]
  · intro pw salt e3 e4
    simp [encrypt_master_key, length_encrypt, random_bytes_length]
  · intro P pk d f g h
    constructor <;> simp [encrypt_file, length_encrypt, random_bytes_length]

/-- C7: two invocations of the encryption operation on the same key and
plaintext whose CSPRNG nonce draws differ (the CSPRNG contract: fresh every
call) produce different nonces and different ciphertexts, for both the file
cipher and the master-key cipher. -/
theorem nonce_freshness_distinct :
    (∀ pk P d1 f1 g1 h1 d2 f2 g2 h2 : List Nat,
      random_bytes 12 f1 ≠ random_bytes 12 f2 →
      (encrypt_file P pk d1 f1 g1 h1).file_nonce ≠ (encrypt_file P pk d2 f2 g2 h2).file_nonce ∧
      (encrypt_file P pk d1 f1 g1 h1).encrypted_file_body ≠
        (encrypt_file P pk d2 f2 g2 h2).encrypted_file_body) ∧
    (∀ pw salt m1 n1 m2 n2 : List Nat,
      random_bytes 12 n1 ≠ random_bytes 12 n2 →
      (encrypt_master_key pw salt m1 n1).2 ≠ (encrypt_master_key pw salt m2 n2).2 ∧
      (encrypt_master_key pw salt m1 n1).1 ≠ (encrypt_master_key pw salt m2 n2).1) := by
  constructor
  · intro pk P d1 f1 g1 h1 d2 f2 g2 h2 hne
    refine ⟨by simpa [encrypt_file] using hne, ?_⟩
    intro hbody
    simp only [encrypt_file, aes256_gcm_encrypt] at hbody
    have htag := List.append_cancel_left hbody
    rcases gcmTag_inj htag with ⟨-, hfn, -⟩
    exact hne hfn
  · intro pw salt m1 n1 m2 n2 hne
    refine ⟨by simpa [encrypt_master_key] using hne, ?_⟩
    intro hct
    simp only [encrypt_master_key, aes256_gcm_encrypt] at hct
    have hlen : (random_bytes 32 m1).length = (random_bytes 32 m2).length := by
      simp [random_bytes_length]
    have := List.append_inj hct hlen
    rcases gcmTag_inj this.2 with ⟨-, hn, -⟩
    exact hne hn

/-- C7 witness: nonce entropies `[]` and `[1]` give different draws. -/
theorem nonce_freshness_distinct_witness :
    (random_bytes 12 ([] : List Nat) ≠ random_bytes 12 [1]) ∧
    (encrypt_file [] [] [] [] [] []).file_nonce ≠ (encrypt_file [] [] [] [1] [] []).file_nonce ∧
    (encrypt_file [] [] [] [] [] []).encrypted_file_body ≠
      (encrypt_file [] [] [] [1] [] []).encrypted_file_body ∧
    (encrypt_master_key [] [] [] []).2 ≠ (encrypt_master_key [] [] [] [1]).2 ∧
    (encrypt_master_key [] [] [] []).1 ≠ (encrypt_master_key [] [] [] [1]).1 := by
  have h1 := nonce_freshness_distinct.1 [] [] [] [] [] [] [] [1] [] [] (by decide)
  have h2 := nonce_freshness_distinct.2 [] [] [] [] [] [1] (by decide)
  exact ⟨by decide, h1.1, h1.2, h2.1, h2.2⟩

/-- C5 counterexample: in the concrete scenario (password "correct horse",
salt "alice@example.com") the encrypted private key is 48 bytes (32-byte
scalar plus 16-byte tag), not 76 bytes as claimed. -/
theorem concrete_scenario_priv_len_ne :
    ((setup_identity (strBytes "correct horse") (strBytes "alice@example.com") [] []).encrypted_private_key).length ≠ 76 := by
  decide

/-- C5 amended: the concrete scenario with the encrypted private key length
corrected to 48 (32 ciphertext + 16 tag): 32-byte public key, unlock
recovers the 32-byte scalar, "hello" encrypts to a 21-byte body and
decrypts back to "hello". -/
theorem concrete_scenario_amended :
    ((setup_identity (strBytes "correct horse") (strBytes "alice@example.com") [] []).public_key).length = 32 ∧
    ((setup_identity (strBytes "correct horse") (strBytes "alice@example.com") [] []).encrypted_private_key).length = 48 ∧
    unlock_identity (strBytes "correct horse") (strBytes "alice@example.com")
      (setup_identity (strBytes "correct horse") (strBytes "alice@example.com") [] []).encrypted_private_key
      (setup_identity (strBytes "correct horse") (strBytes "alice@example.com") [] []).nonce =
        Except.ok (random_bytes 32 []) ∧
    (random_bytes 32 ([] : List Nat)).length = 32 ∧
    (strBytes "hello").length = 5 ∧
    ((encrypt_file (strBytes "hello")
      (setup_identity (strBytes "correct horse") (strBytes "alice@example.com") [] []).public_key
      [] [] [] []).encrypted_file_body).length = 21 ∧
    decrypt_file
      (encrypt_file (strBytes "hello")
        (setup_identity (strBytes "correct horse") (strBytes "alice@example.com") [] []).public_key
        [] [] [] [])
      (random_bytes 32 []) = Except.ok (strBytes "hello") := by
  exact ⟨by decide, by decide, unlock_setup _ _ _ _, by decide, by decide, by decide,
    decrypt_encrypt_file (strBytes "hello") (strBytes "correct horse")
      (strBytes "alice@example.com") [] [] [] [] [] []⟩

theorem flipBit_ne (l : List Nat) (j t : Nat) (hj : j < l.length) : flipBit l j t ≠ l :=
  set_ne l j _ hj (xor_two_pow_ne _ t)

/-- C3: tamper detection — flipping any single bit of `encrypted_file_body`,
`encrypted_dek`, either nonce, or `ephemeral_public_key` of an envelope
produced by `encrypt_file` makes `decrypt_file` fail with the matching
authentication error (`ContentDecryptFailed` or `KeyUnwrapFailed`); no
successful result with different plaintext is possible. -/
theorem tamper_detection (P pw salt e1 e2 d f g h : List Nat) (env : FileEnvelope)
    (sk : List Nat) (j t : Nat)
    (henv : env = encrypt_file P (setup_identity pw salt e1 e2).public_key d f g h)
    (hsk : sk = random_bytes 32 e1) :
    (j < env.encrypted_file_body.length →
      decrypt_file { env with encrypted_file_body := flipBit env.encrypted_file_body j t } sk =
        Except.error DecryptError.ContentDecryptFailed) ∧
    (j < env.encrypted_dek.length →
      decrypt_file { env with encrypted_dek := flipBit env.encrypted_dek j t } sk =
        Except.error DecryptError.KeyUnwrapFailed) ∧
    (j < env.file_nonce.length →
      decrypt_file { env with file_nonce := flipBit env.file_nonce j t } sk =
        Except.error DecryptError.ContentDecryptFailed) ∧
    (j < env.dek_nonce.length →
      decrypt_file { env with dek_nonce := flipBit env.dek_nonce j t } sk =
        Except.error DecryptError.KeyUnwrapFailed) ∧
    (j < env.ephemeral_public_key.length →
      decrypt_file { env with ephemeral_public_key := flipBit env.ephemeral_public_key j t } sk =
        Except.error DecryptError.KeyUnwrapFailed) := by
  subst henv
  subst hsk
  have hcomm : x25519_diffie_hellman (random_bytes 32 e1) (random_bytes 32 g) =
      x25519_diffie_hellman (random_bytes 32 g) (random_bytes 32 e1) := dh_comm _ _
  refine ⟨?_, ?_, ?_, ?_, ?_⟩ <;> intro hj
  · -- flip in the encrypted file body: DEK unwrap succeeds, content check fails
    simp only [encrypt_file, setup_identity, x25519_generate_keypair, x25519_point_of] at hj
    rw [length_encrypt] at hj
    simp only [encrypt_file, setup_identity, x25519_generate_keypair, x25519_point_of,
      decrypt_file, hcomm, decrypt_encrypt]
    rw [decrypt_flip _ _ _ _ _ hj]
  · -- flip in the wrapped DEK: unwrap fails
    simp only [encrypt_file, setup_identity, x25519_generate_keypair, x25519_point_of] at hj
    rw [length_encrypt] at hj
    simp only [encrypt_file, setup_identity, x25519_generate_keypair, x25519_point_of,
      decrypt_file, hcomm]
    rw [decrypt_flip _ _ _ _ _ hj]
  · -- flip in the file nonce: content decryption runs under a different nonce
    simp only [encrypt_file, setup_identity, x25519_generate_keypair, x25519_point_of] at hj
    have hne : flipBit (random_bytes 12 f) j t ≠ random_bytes 12 f := flipBit_ne _ j t hj
    have hwrong := decrypt_wrong_key (random_bytes 32 d) (random_bytes 12 f)
      (random_bytes 32 d) (flipBit (random_bytes 12 f) j t) P (fun hc => hne hc.2)
    simp only [encrypt_file, setup_identity, x25519_generate_keypair, x25519_point_of,
      decrypt_file, hcomm, decrypt_encrypt, hwrong]
  · -- flip in the DEK nonce: unwrap runs under a different nonce
    simp only [encrypt_file, setup_identity, x25519_generate_keypair, x25519_point_of] at hj
    have hne : flipBit (random_bytes 12 h) j t ≠ random_bytes 12 h := flipBit_ne _ j t hj
    have hwrong := decrypt_wrong_key
      (x25519_diffie_hellman (random_bytes 32 g) (random_bytes 32 e1)) (random_bytes 12 h)
      (x25519_diffie_hellman (random_bytes 32 g) (random_bytes 32 e1))
      (flipBit (random_bytes 12 h) j t) (random_bytes 32 d) (fun hc => hne hc.2)
    simp only [encrypt_file, setup_identity, x25519_generate_keypair, x25519_point_of,
      decrypt_file, hcomm, hwrong]
  · -- flip in the ephemeral public key: the recomputed shared secret differs
    simp only [encrypt_file, setup_identity, x25519_generate_keypair, x25519_point_of] at hj
    have hs : j < (random_bytes 32 e1).length := by
      rw [random_bytes_length]
      rw [random_bytes_length] at hj
      omega
    have hflip := dh_flip_ne (random_bytes 32 e1) (random_bytes 32 g) j t hs hj
    have hne : x25519_diffie_hellman (random_bytes 32 e1) (flipBit (random_bytes 32 g) j t) ≠
        x25519_diffie_hellman (random_bytes 32 g) (random_bytes 32 e1) := by
      rw [← hcomm]
      exact hflip
    have hwrong := decrypt_wrong_key
      (x25519_diffie_hellman (random_bytes 32 g) (random_bytes 32 e1)) (random_bytes 12 h)
      (x25519_diffie_hellman (random_bytes 32 e1) (flipBit (random_bytes 32 g) j t))
      (random_bytes 12 h) (random_bytes 32 d) (fun hc => hne hc.1)
    simp only [encrypt_file, setup_identity, x25519_generate_keypair, x25519_point_of,
      decrypt_file, hwrong]

/-- C3 witness: bit 0 of byte 0 of each field of a concrete envelope. -/
theorem tamper_detection_witness :
    (0 < (encrypt_file [5] (setup_identity [1] [2] [] []).public_key [] [] [] []).encrypted_file_body.length ∧
      decrypt_file { encrypt_file [5] (setup_identity [1] [2] [] []).public_key [] [] [] [] with
          encrypted_file_body := flipBit (encrypt_file [5] (setup_identity [1] [2] [] []).public_key [] [] [] []).encrypted_file_body 0 0 }
        (random_bytes 32 []) = Except.error DecryptError.ContentDecryptFailed) ∧
    (0 < (encrypt_file [5] (setup_identity [1] [2] [] []).public_key [] [] [] []).encrypted_dek.length ∧
      decrypt_file { encrypt_file [5] (setup_identity [1] [2] [] []).public_key [] [] [] [] with
          encrypted_dek := flipBit (encrypt_file [5] (setup_identity [1] [2] [] []).public_key [] [] [] []).encrypted_dek 0 0 }
        (random_bytes 32 []) = Except.error DecryptError.KeyUnwrapFailed) ∧
    (0 < (encrypt_file [5] (setup_identity [1] [2] [] []).public_key [] [] [] []).file_nonce.length ∧
      decrypt_file { encrypt_file [5] (setup_identity [1] [2] [] []).public_key [] [] [] [] with
          file_nonce := flipBit (encrypt_file [5] (setup_identity [1] [2] [] []).public_key [] [] [] []).file_nonce 0 0 }
        (random_bytes 32 []) = Except.error DecryptError.ContentDecryptFailed) ∧
    (0 < (encrypt_file [5] (setup_identity [1] [2] [] []).public_key [] [] [] []).dek_nonce.length ∧
      decrypt_file { encrypt_file [5] (setup_identity [1] [2] [] []).public_key [] [] [] [] with
          dek_nonce := flipBit (encrypt_file [5] (setup_identity [1] [2] [] []).public_key [] [] [] []).dek_nonce 0 0 }
        (random_bytes 32 []) = Except.error DecryptError.KeyUnwrapFailed) ∧
    (0 < (encrypt_file [5] (setup_identity [1] [2] [] []).public_key [] [] [] []).ephemeral_public_key.length ∧
      decrypt_file { encrypt_file [5] (setup_identity [1] [2] [] []).public_key [] [] [] [] with
          ephemeral_public_key := flipBit (encrypt_file [5] (setup_identity [1] [2] [] []).public_key [] [] [] []).ephemeral_public_key 0 0 }
        (random_bytes 32 []) = Except.error DecryptError.KeyUnwrapFailed) := by
  have hta := tamper_detection [5] [1] [2] [] [] [] [] [] []
    (encrypt_file [5] (setup_identity [1] [2] [] []).public_key [] [] [] [])
    (random_bytes 32 []) 0 0 rfl rfl
  exact ⟨⟨by decide, hta.1 (by decide)⟩, ⟨by decide, hta.2.1 (by decide)⟩,
    ⟨by decide, hta.2.2.1 (by decide)⟩, ⟨by decide, hta.2.2.2.1 (by decide)⟩,
    ⟨by decide, hta.2.2.2.2 (by decide)⟩⟩
